import Mathlib

/-!
Shallow embedding of `git-pull-requests` (src/src/main.rs).

Text is modeled as `List Char` (Rust `&str` / `String`).  The unsigned id type
`u32` is modeled as `Nat` together with an explicit `< 2^32` bound enforced at
parse time.  Fallible operations return `Option` / `Except`.

The header regex `Merge pull request #(\d+) from (.+?)/(.+)` (main.rs:114) is
embedded as a backtracking scanner with the Rust regex crate's leftmost-first
match semantics: the search is unanchored, `\d+` is greedy, `(.+?)` is
non-greedy, `(.+)` is greedy, and `.` matches any character except a newline.
-/

namespace GitPR

/-- A line that was terminated by `'\n'` has a trailing `'\r'` removed
(Rust `str::lines` CRLF handling). -/
def stripCR (l : List Char) : List Char :=
  if l.getLast? = some '\r' then l.dropLast else l

/-- Single pass over the text, accumulating the current line in reverse in
`cur`: each `'\n'` emits the accumulated line (with a trailing `'\r'`
stripped); the final unterminated line is emitted as-is, and not at all when
empty. -/
def rustLinesAux (cur : List Char) : List Char → List (List Char)
  | [] => if cur.isEmpty then [] else [cur.reverse]
  | c :: rest =>
    if c = '\n' then stripCR cur.reverse :: rustLinesAux [] rest
    else rustLinesAux (c :: cur) rest

/-- Rust `str::lines` (main.rs:103): split on `'\n'`, strip a trailing `'\r'`
from every `'\n'`-terminated line, and do not produce a final empty line for a
trailing newline. -/
def rustLines (cs : List Char) : List (List Char) := rustLinesAux [] cs

/-- `itertools::Itertools::join("\n")` on the remaining lines (main.rs:105). -/
def joinNl : List (List Char) → List Char
  | [] => []
  | [l] => l
  | l :: ls => l ++ '\n' :: joinNl ls

/-- Rust `char::is_whitespace`, restricted to the ASCII part of the Unicode
`White_Space` property (the only characters relevant to this development). -/
def isRustWhitespace (c : Char) : Bool :=
  c = ' ' || c = '\t' || c = '\n' || c = '\r' || c = '\x0b' || c = '\x0c'

/-- Rust `str::trim` (main.rs:106): remove leading and trailing whitespace. -/
def rustTrim (cs : List Char) : List Char :=
  ((cs.dropWhile isRustWhitespace).reverse.dropWhile isRustWhitespace).reverse

/-- Matches a literal against the front of the input, returning the remainder. -/
def dropLiteral : List Char → List Char → Option (List Char)
  | [], cs => some cs
  | _ :: _, [] => none
  | p :: ps, c :: cs => if c = p then dropLiteral ps cs else none

/-- The final `(.+)` capture of the header regex: a greedy run of one-or-more
non-newline characters.  Fails when no non-newline character is available. -/
def takeBranch (cs : List Char) : Option (List Char) :=
  let b := cs.takeWhile (fun c => c ≠ '\n')
  if b.isEmpty then none else some b

/-- Backtracking scan for the `/(.+)` part of the header regex, after at least
one author character has been consumed.  Returns `(restOfAuthor, branch)` for
the leftmost-first (non-greedy author) match. -/
def findSlash : List Char → Option (List Char × List Char)
  | [] => none
  | c :: cs =>
    if c = '/' then
      match takeBranch cs with
      | some b => some ([], b)
      | none => (findSlash cs).map (fun p => (c :: p.1, p.2))
    else if c = '\n' then none
    else (findSlash cs).map (fun p => (c :: p.1, p.2))

/-- The `(.+?)/(.+)` part of the header regex: non-greedy author capture of
one-or-more non-newline characters, a literal `'/'`, then the greedy branch
capture.  Returns `(author, branch)`. -/
def splitAB : List Char → Option (List Char × List Char)
  | [] => none
  | c :: cs =>
    if c = '\n' then none
    else (findSlash cs).map (fun p => (c :: p.1, p.2))

def headerLit : List Char := "Merge pull request #".data

def fromLit : List Char := " from ".data

/-- A header line exactly of the shape `Merge pull request #<N> from <A>/<B>`,
assembled from its three fields. -/
def headerOf (N A B : List Char) : List Char :=
  headerLit ++ N ++ fromLit ++ A ++ '/' :: B

/-- Attempts the header regex match anchored at the current position, mirroring
`Merge pull request #(\d+) from (.+?)/(.+)`.  Returns the three captures
`(digits, author, branch)`.  The `\d+` capture is greedy; giving digits back
cannot help because the following literal starts with a space, so taking the
maximal digit run is exact. -/
def capturesAt (cs : List Char) : Option (List Char × List Char × List Char) :=
  match dropLiteral headerLit cs with
  | none => none
  | some r1 =>
    let ds := r1.takeWhile Char.isDigit
    if ds.isEmpty then none
    else
      match dropLiteral fromLit (r1.dropWhile Char.isDigit) with
      | none => none
      | some r3 =>
        match splitAB r3 with
        | none => none
        | some (a, b) => some (ds, a, b)

/-- `Regex::captures` (main.rs:115): unanchored leftmost search — try a match
at every start position from the left and return the first success. -/
def capturesSearch : List Char → Option (List Char × List Char × List Char)
  | [] => none
  | c :: cs =>
    match capturesAt (c :: cs) with
    | some r => some r
    | none => capturesSearch cs

def digitVal (c : Char) : Nat := c.toNat - '0'.toNat

def digitsToNat (ds : List Char) : Nat :=
  ds.foldl (fun acc c => acc * 10 + digitVal c) 0

/-- One past the largest value of the unsigned id type `u32`. -/
def u32Bound : Nat := 2 ^ 32

/-- Rust `str::parse::<u32>()` (main.rs:116), specialised to the regex capture
`(\d+)`: the input is always a non-empty digit string, so the only possible
failure is positive overflow ("number too large to fit in target type"). -/
def parseU32 (ds : List Char) : Option Nat :=
  if digitsToNat ds < u32Bound then some (digitsToNat ds) else none

/-- main.rs:87-93.  `id` is `u32`; the `parseU32` bound keeps it below `2^32`. -/
structure PullRequestInfo where
  id : Nat
  author : List Char
  branch : List Char
  name : List Char
deriving DecidableEq, Repr

/-- main.rs:96-100: a commit as seen by the core — stable identifier (for
diagnostics), optional message text, parent count. -/
structure GitCommit where
  cid : List Char
  message : Option (List Char)
  parentCount : Nat
deriving DecidableEq, Repr

def errMissing (cid : List Char) : List Char :=
  "cannot get commit message for commit ".data ++ cid

def errEmpty (cid : List Char) : List Char :=
  "merge commit ".data ++ cid ++ " has empty message".data

def errBadHeader (cid header : List Char) : List Char :=
  "merge commit ".data ++ cid ++ " has invalid pull request header line: ".data ++ header

def errBadId (cid ds : List Char) : List Char :=
  "merge commit ".data ++ cid ++ " has invalid pull request id ".data ++ ds
    ++ ": number too large to fit in target type".data

/-- `PullRequestInfo::from_commit` (main.rs:96-133). -/
def PullRequestInfo.from_commit (c : GitCommit) : Except (List Char) PullRequestInfo :=
  match c.message with
  | none => .error (errMissing c.cid)
  | some msg =>
    let ls := rustLines msg
    let body := rustTrim (joinNl (ls.drop 1))
    match ls.head? with
    | none => .error (errEmpty c.cid)
    | some header =>
      match capturesSearch header with
      | none => .error (errBadHeader c.cid header)
      | some (ds, author, branch) =>
        match parseU32 ds with
        | none => .error (errBadId c.cid ds)
        | some id => .ok ⟨id, author, branch, body⟩

/-- main.rs:54-57. -/
inductive OutputFormat where
  | Markdown
deriving DecidableEq, Repr

/-- main.rs:36-40. -/
structure Config where
  output_format : OutputFormat
  repo_name : Option (List Char)
  omit_author : Bool
deriving DecidableEq, Repr

/-- Decimal rendering of a `u32` id, as Rust's `Display` for `u32`. -/
def natToChars (n : Nat) : List Char := Nat.toDigits 10 n

/-- `OutputFormat::format` (main.rs:68-85). -/
def OutputFormat.format (f : OutputFormat) (info : PullRequestInfo) (config : Config) :
    List Char :=
  match f with
  | .Markdown =>
    let r0 := " * ".data
    let r1 := match config.repo_name with
      | some repo => r0 ++ repo
      | none => r0
    let r2 := r1 ++ '#' :: natToChars info.id ++ [' ']
    let r3 := if config.omit_author then r2 else r2 ++ "(by ".data ++ info.author ++ ") ".data
    r3 ++ "- ".data ++ info.name

/-- The merge classifier (main.rs:169): keep only commits with exactly two
parents. -/
def isMergeCommit (c : GitCommit) : Bool := c.parentCount == 2

/-- The extraction stage of the pipeline (main.rs:167-170): filter to merge
commits, then run the extractor on each, in input order. -/
def extractAll (commits : List GitCommit) : List (Except (List Char) PullRequestInfo) :=
  (commits.filter isMergeCommit).map PullRequestInfo.from_commit

def isErr : Except (List Char) PullRequestInfo → Bool
  | .error _ => true
  | .ok _ => false

def okValue : Except (List Char) PullRequestInfo → Option PullRequestInfo
  | .ok pr => some pr
  | .error _ => none

/-- `any_errors` (main.rs:172-180): set as soon as one extraction fails. -/
def anyErrors (results : List (Except (List Char) PullRequestInfo)) : Bool :=
  results.any isErr

/-- The `filter_map`/`collect` of main.rs:173-180: the successfully extracted
records, in input order. -/
def successes (results : List (Except (List Char) PullRequestInfo)) : List PullRequestInfo :=
  results.filterMap okValue

/-- The aggregator policy (main.rs:182-193): abort (emit nothing) when an error
occurred and skipping is not allowed; otherwise emit the successes. -/
def aggregate (results : List (Except (List Char) PullRequestInfo)) (allowSkip : Bool) :
    List PullRequestInfo :=
  if anyErrors results && !allowSkip then [] else successes results

/-- The whole core pipeline of `main` (main.rs:167-193): classify, extract,
aggregate, format — one output line per retained record, in order. -/
def runOutput (commits : List GitCommit) (allowSkip : Bool) (config : Config) :
    List (List Char) :=
  (aggregate (extractAll commits) allowSkip).map
    (fun pr => config.output_format.format pr config)

/-- Unfolding of the extractor on a present message: the same nested case
analysis, with the `let`-bindings of main.rs:102-107 expanded.  Definitional. -/
theorem from_commit_some (cid : List Char) (k : Nat) (m : List Char) :
    PullRequestInfo.from_commit ⟨cid, some m, k⟩ =
      match (rustLines m).head? with
      | none => .error (errEmpty cid)
      | some header =>
        match capturesSearch header with
        | none => .error (errBadHeader cid header)
        | some (ds, author, branch) =>
          match parseU32 ds with
          | none => .error (errBadId cid ds)
          | some id =>
            .ok ⟨id, author, branch, rustTrim (joinNl ((rustLines m).drop 1))⟩ := rfl




/-- A result list without errors consists exactly of its successes, in order. -/
theorem no_errors_all_ok (results : List (Except (List Char) PullRequestInfo))
    (h : anyErrors results = false) :
    results = (successes results).map Except.ok := by
  induction results with
  | nil => rfl
  | cons r rs ih =>
    cases r with
    | ok pr =>
      have h' : anyErrors rs = false := by
        simpa [anyErrors, isErr] using h
      simp only [successes, List.filterMap_cons, okValue, List.map_cons]
      exact congrArg _ (ih h')
    | error e =>
      simp [anyErrors, isErr] at h

/-- C8: a commit whose message is absent fails with the missing-message reason
naming the commit; a commit whose message is empty (no header line) fails with
the empty-message reason naming the commit; neither produces a record. -/
theorem c8_missing_or_empty_message_fails (cid : List Char) (k : Nat) :
    PullRequestInfo.from_commit ⟨cid, none, k⟩ = .error (errMissing cid) ∧
    PullRequestInfo.from_commit ⟨cid, some [], k⟩ = .error (errEmpty cid) :=
  ⟨rfl, rfl⟩

/-- C7: the merge classifier keeps a commit exactly when its parent count is 2;
the extraction stage runs on precisely the commits the classifier keeps, so
commits with 0, 1, or 3-or-more parents are excluded from all downstream
processing regardless of message content. -/
theorem c7_merge_classifier_exactly_two_parents (commits : List GitCommit) (c : GitCommit) :
    (isMergeCommit c = true ↔ c.parentCount = 2) ∧
    (c ∈ commits.filter isMergeCommit ↔ c ∈ commits ∧ c.parentCount = 2) ∧
    extractAll commits = (commits.filter isMergeCommit).map PullRequestInfo.from_commit := by
  refine ⟨?_, ?_, rfl⟩
  · simp [isMergeCommit]
  · simp [List.mem_filter, isMergeCommit]

/-- C3: aggregator policy — with at least one failure and skipping disallowed,
no record is emitted at all; with at least one failure and skipping allowed,
exactly the successes are emitted in input order; with no failures, every
record is a success and all are emitted in input order. -/
theorem c3_aggregator_skip_policy (results : List (Except (List Char) PullRequestInfo))
    (allowSkip : Bool) :
    (anyErrors results = true → allowSkip = false → aggregate results allowSkip = []) ∧
    (anyErrors results = true → allowSkip = true →
      aggregate results allowSkip = successes results) ∧
    (anyErrors results = false →
      aggregate results allowSkip = successes results ∧
      results = (successes results).map Except.ok) := by
  refine ⟨?_, ?_, ?_⟩
  · intro he hs; simp [aggregate, he, hs]
  · intro he hs; simp [aggregate, he, hs]
  · intro he; exact ⟨by simp [aggregate, he], no_errors_all_ok results he⟩

theorem c3_aggregator_skip_policy_witness :
    aggregate [Except.error "e".data, Except.ok ⟨1, "a".data, "b".data, []⟩] true
      = successes [Except.error "e".data, Except.ok ⟨1, "a".data, "b".data, []⟩] :=
  (c3_aggregator_skip_policy _ true).2.1 rfl rfl

/-- C4: the markdown formatter returns exactly
`" * " ++ repoName ++ "#" ++ id ++ " " ++ ("(by " ++ author ++ ") ")? ++ "- " ++ name`
with no trailing newline, the author segment present iff `omit_author` is
false and the repository name empty when absent; in particular the record
(42, alice, "Add feature X") under the default config renders as
` * #42 (by alice) - Add feature X`. -/
theorem c4_markdown_format_shape (info : PullRequestInfo) (config : Config) :
    OutputFormat.format .Markdown info config =
      " * ".data ++ config.repo_name.getD [] ++ '#' :: (natToChars info.id ++ [' ']
        ++ (if config.omit_author then [] else "(by ".data ++ info.author ++ ") ".data)
        ++ "- ".data ++ info.name) ∧
    OutputFormat.format .Markdown ⟨42, "alice".data, "feature-x".data, "Add feature X".data⟩
      ⟨.Markdown, none, false⟩ = " * #42 (by alice) - Add feature X".data := by
  constructor
  · cases hr : config.repo_name <;> cases ho : config.omit_author <;>
      simp [OutputFormat.format, hr, ho, List.append_assoc]
  · rfl

/-- C10: the formatter never reads the `branch` field — two records agreeing on
id, author and name render identically under every config, whatever their
branches. -/
theorem c10_format_independent_of_branch (r1 r2 : PullRequestInfo) (f : OutputFormat)
    (config : Config) (hid : r1.id = r2.id) (hauthor : r1.author = r2.author)
    (hname : r1.name = r2.name) :
    OutputFormat.format f r1 config = OutputFormat.format f r2 config := by
  cases f
  simp only [OutputFormat.format, hid, hauthor, hname]

theorem c10_format_independent_of_branch_witness :
    OutputFormat.format .Markdown ⟨7, "a".data, "b1".data, "n".data⟩
        ⟨.Markdown, some "r".data, false⟩
      = OutputFormat.format .Markdown ⟨7, "a".data, "b2".data, "n".data⟩
        ⟨.Markdown, some "r".data, false⟩ :=
  c10_format_independent_of_branch _ _ _ _ rfl rfl rfl

/-- C9: extraction is total — on every commit it returns a plain result value,
either a record or one of the four descriptive failures (missing message,
empty message, invalid header, invalid id), never anything else; and
formatting is total — it returns a string for every record and config. -/
theorem c9_extraction_and_formatting_total (c : GitCommit) :
    ((∃ pr, PullRequestInfo.from_commit c = .ok pr) ∨
      PullRequestInfo.from_commit c = .error (errMissing c.cid) ∨
      PullRequestInfo.from_commit c = .error (errEmpty c.cid) ∨
      (∃ h, PullRequestInfo.from_commit c = .error (errBadHeader c.cid h)) ∨
      (∃ d, PullRequestInfo.from_commit c = .error (errBadId c.cid d))) ∧
    (∀ (f : OutputFormat) (info : PullRequestInfo) (config : Config),
      ∃ out, OutputFormat.format f info config = out) := by
  constructor
  · obtain ⟨cid, msg, k⟩ := c
    cases msg with
    | none => exact Or.inr (Or.inl rfl)
    | some m =>
      rw [from_commit_some]
      cases hh : (rustLines m).head? with
      | none => exact Or.inr (Or.inr (Or.inl (by simp [hh])))
      | some header =>
        cases hcap : capturesSearch header with
        | none =>
          exact Or.inr (Or.inr (Or.inr (Or.inl ⟨header, by simp [hh, hcap]⟩)))
        | some t =>
          obtain ⟨ds, a, b⟩ := t
          cases hp : parseU32 ds with
          | none =>
            exact Or.inr (Or.inr (Or.inr (Or.inr ⟨ds, by simp [hh, hcap, hp]⟩)))
          | some id =>
            exact Or.inl ⟨⟨id, a, b, rustTrim (joinNl ((rustLines m).drop 1))⟩,
              by simp [hh, hcap, hp]⟩
  · intro f info config
    exact ⟨_, rfl⟩

theorem dropLiteral_append (p rest : List Char) : dropLiteral p (p ++ rest) = some rest := by
  induction p with
  | nil => rfl
  | cons c p ih => simp [dropLiteral, ih]

/-- Splitting a digit run followed by a non-digit: `takeWhile`/`dropWhile`
recover exactly the run and the remainder. -/
theorem digits_split (N : List Char) (c : Char) (rest : List Char)
    (hN : ∀ x ∈ N, Char.isDigit x = true) (hc : Char.isDigit c = false) :
    (N ++ c :: rest).takeWhile Char.isDigit = N ∧
    (N ++ c :: rest).dropWhile Char.isDigit = c :: rest := by
  induction N with
  | nil => simp [List.takeWhile_cons, List.dropWhile_cons, hc]
  | cons d N ih =>
    have hd : Char.isDigit d = true := hN d (by simp)
    obtain ⟨h1, h2⟩ := ih (fun x hx => hN x (by simp [hx]))
    simp [List.takeWhile_cons, List.dropWhile_cons, hd, h1, h2]

theorem takeWhile_ne_nl (B : List Char) (hn : '\n' ∉ B) :
    B.takeWhile (fun c => c ≠ '\n') = B := by
  induction B with
  | nil => rfl
  | cons c cs ih =>
    have hc : c ≠ '\n' := fun h => hn (h ▸ List.mem_cons_self c cs)
    simp only [List.takeWhile_cons, decide_eq_true hc, if_pos]
    exact congrArg _ (ih (fun h => hn (List.mem_cons_of_mem c h)))

theorem takeBranch_all (B : List Char) (hB : B ≠ []) (hn : '\n' ∉ B) :
    takeBranch B = some B := by
  unfold takeBranch
  rw [takeWhile_ne_nl B hn]
  cases B with
  | nil => exact absurd rfl hB
  | cons c cs => rfl

theorem findSlash_append (A B : List Char) (hA1 : '/' ∉ A) (hA2 : '\n' ∉ A)
    (hB1 : B ≠ []) (hB2 : '\n' ∉ B) :
    findSlash (A ++ '/' :: B) = some (A, B) := by
  induction A with
  | nil =>
    simp [findSlash, takeBranch_all B hB1 hB2]
  | cons c A ih =>
    have hc1 : c ≠ '/' := fun h => hA1 (h ▸ List.mem_cons_self c A)
    have hc2 : c ≠ '\n' := fun h => hA2 (h ▸ List.mem_cons_self c A)
    have ih' := ih (fun h => hA1 (List.mem_cons_of_mem c h))
      (fun h => hA2 (List.mem_cons_of_mem c h))
    simp [findSlash, if_neg hc1, if_neg hc2, ih']

theorem splitAB_append (A B : List Char) (hA0 : A ≠ []) (hA1 : '/' ∉ A) (hA2 : '\n' ∉ A)
    (hB1 : B ≠ []) (hB2 : '\n' ∉ B) :
    splitAB (A ++ '/' :: B) = some (A, B) := by
  cases A with
  | nil => exact absurd rfl hA0
  | cons c A' =>
    have hc : c ≠ '\n' := fun h => hA2 (h ▸ List.mem_cons_self c A')
    have hf := findSlash_append A' B (fun h => hA1 (List.mem_cons_of_mem c h))
      (fun h => hA2 (List.mem_cons_of_mem c h)) hB1 hB2
    simp only [List.cons_append, splitAB, if_neg hc, hf, Option.map_some']

theorem capturesAt_header (N A B : List Char)
    (hN0 : N ≠ []) (hN : ∀ x ∈ N, Char.isDigit x = true)
    (hA0 : A ≠ []) (hA1 : '/' ∉ A) (hA2 : '\n' ∉ A)
    (hB1 : B ≠ []) (hB2 : '\n' ∉ B) :
    capturesAt (headerOf N A B) = some (N, A, B) := by
  have hassoc : headerOf N A B
      = headerLit ++ (N ++ (fromLit ++ (A ++ '/' :: B))) := by
    simp [headerOf, List.append_assoc]
  have hfrom : fromLit ++ (A ++ '/' :: B) = ' ' :: ("from ".data ++ (A ++ '/' :: B)) := rfl
  obtain ⟨htake, hdrop⟩ := digits_split N ' ' ("from ".data ++ (A ++ '/' :: B)) hN (by decide)
  rw [capturesAt, hassoc, dropLiteral_append]
  simp only [hfrom, htake, hdrop]
  rw [show (' ' :: ("from ".data ++ (A ++ '/' :: B))) = fromLit ++ (A ++ '/' :: B) from rfl,
    dropLiteral_append]
  cases N with
  | nil => exact absurd rfl hN0
  | cons d N' => simp [splitAB_append A B hA0 hA1 hA2 hB1 hB2]

theorem capturesSearch_of_at {cs : List Char} {r : List Char × List Char × List Char}
    (h0 : cs ≠ []) (h : capturesAt cs = some r) :
    capturesSearch cs = some r := by
  cases cs with
  | nil => exact absurd rfl h0
  | cons c cs' => simp [capturesSearch, h]

theorem headerOf_ne_nil (N A B : List Char) : headerOf N A B ≠ [] := by
  intro h
  rw [show headerOf N A B = 'M' :: ("erge pull request #".data ++ N ++ fromLit ++ A ++ '/' :: B)
    from by simp [headerOf, headerLit]] at h
  exact List.noConfusion h

theorem nl_not_mem_headerOf (N A B : List Char)
    (hN : ∀ x ∈ N, Char.isDigit x = true) (hA2 : '\n' ∉ A) (hB2 : '\n' ∉ B) :
    '\n' ∉ headerOf N A B := by
  intro hx
  simp only [headerOf, List.mem_append, List.mem_cons] at hx
  rcases hx with (((hx | hx) | hx) | hx) | (hx | hx)
  · exact absurd hx (by decide)
  · exact absurd (hN _ hx) (by decide)
  · exact absurd hx (by decide)
  · exact hA2 hx
  · exact absurd hx (by decide)
  · exact hB2 hx

theorem rustLinesAux_no_nl (cs : List Char) (cur : List Char) (h : '\n' ∉ cs) :
    rustLinesAux cur cs
      = if (cur.reverse ++ cs).isEmpty then [] else [cur.reverse ++ cs] := by
  induction cs generalizing cur with
  | nil => cases cur <;> simp [rustLinesAux]
  | cons c cs ih =>
    have hc : c ≠ '\n' := fun hh => h (hh ▸ List.mem_cons_self c cs)
    have h' : '\n' ∉ cs := fun hh => h (List.mem_cons_of_mem c hh)
    rw [show rustLinesAux cur (c :: cs)
        = if c = '\n' then stripCR cur.reverse :: rustLinesAux [] cs
          else rustLinesAux (c :: cur) cs from rfl,
      if_neg hc, ih (c :: cur) h']
    simp [List.append_assoc]

theorem rustLinesAux_nl (h t cur : List Char) (hh : '\n' ∉ h) :
    rustLinesAux cur (h ++ '\n' :: t)
      = stripCR (cur.reverse ++ h) :: rustLinesAux [] t := by
  induction h generalizing cur with
  | nil => simp [rustLinesAux]
  | cons c h ih =>
    have hc : c ≠ '\n' := fun hx => hh (hx ▸ List.mem_cons_self c h)
    rw [List.cons_append,
      show rustLinesAux cur (c :: (h ++ '\n' :: t))
        = if c = '\n' then stripCR cur.reverse :: rustLinesAux [] (h ++ '\n' :: t)
          else rustLinesAux (c :: cur) (h ++ '\n' :: t) from rfl,
      if_neg hc, ih (c :: cur) (fun hx => hh (List.mem_cons_of_mem c hx))]
    simp [List.append_assoc]

/-- `str::lines` on a single-line header followed by a body: the header is the
first line and the remaining lines are the lines of the body. -/
theorem rustLines_header_body (h t : List Char) (hh : '\n' ∉ h)
    (hcr : h.getLast? ≠ some '\r') :
    rustLines (h ++ '\n' :: t) = h :: rustLines t := by
  rw [rustLines, rustLinesAux_nl h t [] hh]
  simp [stripCR, hcr, rustLines]

/-- `str::lines` on a non-empty text without newlines: one line, unchanged. -/
theorem rustLines_no_nl (h : List Char) (hh : '\n' ∉ h) (h0 : h ≠ []) :
    rustLines h = [h] := by
  rw [rustLines, rustLinesAux_no_nl h [] hh]
  simp [h0]

/-- C1: a message whose first line is exactly
`Merge pull request #<N> from <A>/<B>` — `N` a digit run whose value fits the
unsigned id type, `A` non-empty without `/`, `B` non-empty — extracts
successfully to id `N`, author `A`, branch `B`, with `name` the body (the lines
after the first, joined by newline and trimmed); with no body the name is
empty. -/
theorem c1_exact_header_extraction
    (cid N A B bodyText : List Char) (k : Nat)
    (hN0 : N ≠ []) (hN : ∀ x ∈ N, Char.isDigit x = true)
    (hNv : digitsToNat N < u32Bound)
    (hA0 : A ≠ []) (hA1 : '/' ∉ A) (hA2 : '\n' ∉ A)
    (hB1 : B ≠ []) (hB2 : '\n' ∉ B) (hB3 : B.getLast? ≠ some '\r') :
    PullRequestInfo.from_commit ⟨cid, some (headerOf N A B ++ '\n' :: bodyText), k⟩
      = .ok ⟨digitsToNat N, A, B, rustTrim (joinNl (rustLines bodyText))⟩ ∧
    PullRequestInfo.from_commit ⟨cid, some (headerOf N A B), k⟩
      = .ok ⟨digitsToNat N, A, B, []⟩ := by
  have hhdr := nl_not_mem_headerOf N A B hN hA2 hB2
  have hcap := capturesSearch_of_at (headerOf_ne_nil N A B)
    (capturesAt_header N A B hN0 hN hA0 hA1 hA2 hB1 hB2)
  have hlast : (headerOf N A B).getLast? ≠ some '\r' := by
    rw [show headerOf N A B = (headerLit ++ N ++ fromLit ++ A ++ ['/']) ++ B from by
      simp [headerOf, List.append_assoc]]
    rw [List.getLast?_append_of_ne_nil _ hB1]
    exact hB3
  constructor
  · rw [from_commit_some, rustLines_header_body _ _ hhdr hlast]
    simp only [List.head?_cons, List.drop_succ_cons, List.drop_zero, hcap, parseU32,
      if_pos hNv]
  · rw [from_commit_some, rustLines_no_nl _ hhdr (headerOf_ne_nil N A B)]
    simp only [List.head?_cons, List.drop_succ_cons, List.drop_zero, hcap, parseU32,
      if_pos hNv]
    rfl

theorem c1_exact_header_extraction_witness :
    PullRequestInfo.from_commit
        ⟨"c1".data, some "Merge pull request #42 from alice/feature-x\nAdd feature X".data, 2⟩
      = .ok ⟨42, "alice".data, "feature-x".data, "Add feature X".data⟩ ∧
    PullRequestInfo.from_commit
        ⟨"c1".data, some "Merge pull request #42 from alice/feature-x".data, 2⟩
      = .ok ⟨42, "alice".data, "feature-x".data, []⟩ :=
  c1_exact_header_extraction "c1".data "42".data "alice".data "feature-x".data
    "Add feature X".data 2 (by decide) (by decide) (by decide) (by decide) (by decide)
    (by decide) (by decide) (by decide) (by decide)

/-- C6: when the text after ` from ` contains further slashes, the non-greedy
author capture takes only the segment before the first `/` and the branch
capture keeps everything after it, slashes included — the branch is never split
at later slashes. -/
theorem c6_branch_keeps_later_slashes
    (cid N A B : List Char) (k : Nat)
    (hN0 : N ≠ []) (hN : ∀ x ∈ N, Char.isDigit x = true)
    (hNv : digitsToNat N < u32Bound)
    (hA0 : A ≠ []) (hA1 : '/' ∉ A) (hA2 : '\n' ∉ A)
    (_hslash : '/' ∈ B) (hB1 : B ≠ []) (hB2 : '\n' ∉ B) :
    PullRequestInfo.from_commit ⟨cid, some (headerOf N A B), k⟩
      = .ok ⟨digitsToNat N, A, B, []⟩ := by
  have hhdr := nl_not_mem_headerOf N A B hN hA2 hB2
  have hcap := capturesSearch_of_at (headerOf_ne_nil N A B)
    (capturesAt_header N A B hN0 hN hA0 hA1 hA2 hB1 hB2)
  rw [from_commit_some, rustLines_no_nl _ hhdr (headerOf_ne_nil N A B)]
  simp only [List.head?_cons, List.drop_succ_cons, List.drop_zero, hcap, parseU32,
    if_pos hNv]
  rfl

theorem c6_branch_keeps_later_slashes_witness :
    PullRequestInfo.from_commit
        ⟨"c1".data, some "Merge pull request #7 from alice/feature/login".data, 2⟩
      = .ok ⟨7, "alice".data, "feature/login".data, []⟩ :=
  c6_branch_keeps_later_slashes "c1".data "7".data "alice".data "feature/login".data 2
    (by decide) (by decide) (by decide) (by decide) (by decide) (by decide) (by decide)
    (by decide) (by decide)

/-- C5: when the header matches the pattern but the captured digit sequence
denotes a value of at least `2^32`, extraction fails with the invalid-id reason
carrying the captured digits and the parse error — it does not wrap, truncate
or succeed. -/
theorem c5_overflowing_id_fails
    (cid header : List Char) (k : Nat) (ds a b : List Char)
    (hh0 : header ≠ []) (hh1 : '\n' ∉ header)
    (hcap : capturesSearch header = some (ds, a, b))
    (hov : u32Bound ≤ digitsToNat ds) :
    PullRequestInfo.from_commit ⟨cid, some header, k⟩ = .error (errBadId cid ds) := by
  rw [from_commit_some, rustLines_no_nl header hh1 hh0]
  simp only [List.head?_cons, hcap, parseU32, if_neg (Nat.not_lt.mpr hov)]

theorem c5_overflowing_id_fails_witness :
    PullRequestInfo.from_commit
        ⟨"c1".data, some "Merge pull request #4294967296 from a/b".data, 2⟩
      = .error (errBadId "c1".data "4294967296".data) :=
  c5_overflowing_id_fails "c1".data "Merge pull request #4294967296 from a/b".data 2
    "4294967296".data "a".data "b".data (by decide) (by decide) (by rfl) (by decide)

/-- C2 counterexample: the header search is unanchored, so a first line that
does not consist of the pattern from its start — here with the extra text `xx`
before the literal — still extracts successfully instead of failing as the
claim states. -/
theorem c2_counterexample_unanchored_match :
    PullRequestInfo.from_commit
        ⟨"c1".data, some "xxMerge pull request #1 from a/b".data, 2⟩
      = .ok ⟨1, "a".data, "b".data, []⟩ := by rfl

/-- C2 (amended): extraction fails with the invalid-header reason, carrying
the offending header text, exactly when the unanchored leftmost search finds
no occurrence of the pattern anywhere in the header line; a header that merely
carries extra text before the pattern is accepted. -/
theorem c2_unmatched_header_fails
    (cid header bodyText : List Char) (k : Nat)
    (hh1 : '\n' ∉ header) (hcr : header.getLast? ≠ some '\r')
    (hcap : capturesSearch header = none) :
    PullRequestInfo.from_commit ⟨cid, some (header ++ '\n' :: bodyText), k⟩
      = .error (errBadHeader cid header) ∧
    (header ≠ [] → PullRequestInfo.from_commit ⟨cid, some header, k⟩
      = .error (errBadHeader cid header)) := by
  constructor
  · rw [from_commit_some, rustLines_header_body _ _ hh1 hcr]
    simp only [List.head?_cons, hcap]
  · intro h0
    rw [from_commit_some, rustLines_no_nl header hh1 h0]
    simp only [List.head?_cons, hcap]

theorem c2_unmatched_header_fails_witness :
    PullRequestInfo.from_commit ⟨"c1".data, some "hello\nworld".data, 2⟩
      = .error (errBadHeader "c1".data "hello".data) :=
  (c2_unmatched_header_fails "c1".data "hello".data "world".data 2
    (by decide) (by decide) (by rfl)).1

end GitPR
